import Mathlib

/-!
Shallow embedding of `src/server/video_service.rs` (rustdesk capture/encode/
broadcast pipeline): the quality negotiation functions, the display registry
functions, the frame controller's acknowledgement wait, the privacy-mode
conflict check, and the capture loop's wait-budget update, together with
theorems settling the specification's claims about them.

Machine integers are modelled as `ℤ` (for Rust `i32`/`i64`) and `ℕ` (for
`usize`/`u32`/`u128`), with two's-complement wrap-around made explicit at the
points where the Rust code casts or can overflow.
-/

namespace VideoService

/-! ### Two's-complement 32/64-bit helpers (Rust integer semantics) -/

/-- `2^32`, the modulus of Rust `u32` / `i32` arithmetic. -/
def U32MOD : ℕ := 4294967296

/-- `2^64`, the modulus of Rust `usize` (64-bit) arithmetic. -/
def U64MOD : ℕ := 18446744073709551616

/-- Reinterpret an unsigned bit pattern (reduced mod `2^32`) as a signed
`i32` value, i.e. the inverse of taking the low 32 bits of the two's
complement representation. -/
def s32ofNat (n : ℕ) : ℤ :=
  if n % U32MOD < 2147483648 then ((n % U32MOD : ℕ) : ℤ)
  else ((n % U32MOD : ℕ) : ℤ) - (U32MOD : ℤ)

/-- The low 32 bits of the two's complement representation of an integer:
`x as u32` in Rust. The modulus is the integer literal `2^32`. -/
def u32ofInt (x : ℤ) : ℕ := (x % 4294967296).toNat

/-- Rust `i32` bitwise or `a | b`, via the unsigned bit patterns. -/
def lor32 (a b : ℤ) : ℤ := s32ofNat (Nat.lor (u32ofInt a) (u32ofInt b))

/-- Rust `i32` shift left `a << k` (wrapping the value bits, as the released
build does). -/
def shl32 (a : ℤ) (k : ℕ) : ℤ := s32ofNat (u32ofInt a * 2 ^ k)

/-- Rust `i32` arithmetic shift right `a >> k`: floor division by `2^k`. -/
def shr32 (a : ℤ) (k : ℕ) : ℤ := Int.fdiv a (2 ^ k)

/-- Rust `a & 0xFF` on `i32`: on two's complement this is the nonnegative
residue of `a` mod 256. -/
def land255 (a : ℤ) : ℤ := a % 256

/-- Rust signed division `a / b` truncates toward zero: `Int.tdiv`. -/
def rdiv (a b : ℤ) : ℤ := Int.tdiv a b

/-- Rust `i as usize` for a signed 64-bit-or-narrower `i`: sign extension then
reinterpretation, i.e. the nonnegative residue mod `2^64` (the literal). -/
def i32AsUsize (i : ℤ) : ℕ := (i % 18446744073709551616).toNat

/-! ### Quality negotiation (`convert_quality`, `update_image_quality`,
`get_image_quality`, `get_quality`) -/

/-- Modelled from the spec: discriminant of the `ImageQuality::Low` protobuf
enum variant, which is declared outside the inspected source. The spec only
requires three distinct named presets; the discriminants are small protobuf
enum tags, distinct from every packed `(bitrate, quantizer)` value. -/
def ImageQualityLow : ℤ := 2

/-- Modelled from the spec: discriminant of `ImageQuality::Balanced` (see
`ImageQualityLow`). -/
def ImageQualityBalanced : ℤ := 3

/-- Modelled from the spec: discriminant of `ImageQuality::Best` (see
`ImageQualityLow`). -/
def ImageQualityBest : ℤ := 4

/-- `convert_quality` from `video_service.rs`: maps a requested quality (a
preset discriminant or a raw packed `(bitrate, quantizer)` pair) to the packed
value stored in `IMAGE_QUALITIES`. Presets map to fixed pairs; any other
input is unpacked as `(q >> 8 & 0xFF, q & 0xFF)`, rescaled (bitrate doubled,
quantizer mapped through `(100 - quantizer) * 36 / 100`), and repacked as
`q.0 << 8 | q.1`; a non-positive bitrate component yields `0`. -/
def convert_quality (q : ℤ) : ℤ :=
  let p : ℤ × ℤ :=
    if q = ImageQualityBalanced then (rdiv (100 * 2) 3, 12)
    else if q = ImageQualityLow then (rdiv 100 2, 18)
    else if q = ImageQualityBest then (100, 12)
    else
      let bitrate := land255 (shr32 q 8)
      let quantizer := land255 q
      (bitrate * 2, rdiv ((100 - quantizer) * 36) 100)
  if p.1 ≤ 0 then 0 else lor32 (shl32 p.1 8) p.2

/-- The bitrate-fraction component of a packed quality value, exactly as both
`convert_quality` and `get_quality` extract it: `q >> 8 & 0xFF`. -/
def bitrate_fraction (q : ℤ) : ℤ := land255 (shr32 q 8)

/-- The `IMAGE_QUALITIES` table: connection id ↦ packed quality, modelled as
an association list with at most one entry per id (`HashMap` semantics). -/
def QualityTable := List (ℤ × ℤ)

/-- `HashMap::insert`: replace any existing entry for `id`. -/
def qualities_insert (id v : ℤ) (t : List (ℤ × ℤ)) : List (ℤ × ℤ) :=
  (id, v) :: t.filter (fun p => p.1 ≠ id)

/-- `HashMap::remove`. -/
def qualities_remove (id : ℤ) (t : List (ℤ × ℤ)) : List (ℤ × ℤ) :=
  t.filter (fun p => p.1 ≠ id)

/-- `update_image_quality` from `video_service.rs`: `Some q` converts the
request and stores it when the converted packed value is positive, removing
the entry otherwise; `None` removes the entry. -/
def update_image_quality (id : ℤ) (q : Option ℤ) (t : List (ℤ × ℤ)) :
    List (ℤ × ℤ) :=
  match q with
  | some q0 =>
    let v := convert_quality q0
    if 0 < v then qualities_insert id v t else qualities_remove id t
  | none => qualities_remove id t

/-- A sequence of `update_image_quality` calls applied in order. -/
def apply_quality_updates (ops : List (ℤ × Option ℤ)) (t : List (ℤ × ℤ)) :
    List (ℤ × ℤ) :=
  ops.foldl (fun acc op => update_image_quality op.1 op.2 acc) t

/-- `get_image_quality` from `video_service.rs`: the minimum stored packed
value, defaulting to the converted Balanced preset when the table is empty. -/
def get_image_quality (t : List (ℤ × ℤ)) : ℤ :=
  ((t.map Prod.snd).min?).getD (convert_quality ImageQualityBalanced)

/-- `get_quality` from `video_service.rs`: derives
`(bitrate, rc_min_quantizer, rc_max_quantizer, speed)` from the frame size
and a packed quality value. `b = ((w * h) / 1000) as u32` and the bitrate is
`bitrate_fraction as u32 * b / 100` in `u32` arithmetic (usize product and
u32 product reduced mod their width). -/
def get_quality (w h : ℕ) (q : ℤ) : ℕ × ℕ × ℕ × ℤ :=
  let bitrate := land255 (shr32 q 8)
  let quantizer := land255 q
  let b : ℕ := (w * h % U64MOD) / 1000 % U32MOD
  (bitrate.toNat * b % U32MOD / 100, quantizer.toNat, 56, 7)

/-! ### Display registry (`get_displays`, `check_display_changed`,
`switch_display`) -/

/-- The fields of a `Display` that the inspected functions read: dimensions
and the primary flag. -/
structure Disp where
  width : ℕ
  height : ℕ
  primary : Bool
deriving DecidableEq, Repr

/-- `usize::MAX`, the "unset" marker stored in `CURRENT_DISPLAY`. -/
def USIZE_MAX : ℕ := 18446744073709551615

/-- The `primary` index computed by `get_displays`' enumeration loop: the
index of the last display flagged primary, `0` if none is. -/
def primary_of (ds : List Disp) : ℕ :=
  ds.enum.foldl (fun acc p => if p.2.primary then p.1 else acc) 0

/-- The staleness reset at the top of `get_displays`: if no viewer has been
active for at least 30 seconds, `CURRENT_DISPLAY` is set to `usize::MAX`. -/
def stale_reset (elapsed_secs cur : ℕ) : ℕ :=
  if 30 ≤ elapsed_secs then USIZE_MAX else cur

/-- The effect of `get_displays` on `CURRENT_DISPLAY` for a successful
enumeration `ds`, given the seconds since `LAST_ACTIVE` and the stored index:
after the staleness reset, an index that is not below `ds.length` is replaced
by the primary display's index; the result is both persisted and returned. -/
def get_displays (elapsed_secs cur : ℕ) (ds : List Disp) : ℕ :=
  let cur1 := stale_reset elapsed_secs cur
  if ds.length ≤ cur1 then primary_of ds else cur1

/-- `check_display_changed` from `video_service.rs`, with the outcome of
`try_get_displays` passed explicitly (`none` = enumeration failed, which
yields `false`): reports a change when the display count differs from
`last_n`, or when some display flagged primary sits at an index other than
`last_current` or has width/height differing from `last_width`/`last_height`. -/
def check_display_changed (ds : Option (List Disp))
    (last_n last_current last_width last_height : ℕ) : Bool :=
  match ds with
  | none => false
  | some ds =>
    if ds.length ≠ last_n then true
    else ds.enum.any fun p =>
      p.2.primary && (decide (p.1 ≠ last_current) ||
        decide (p.2.width ≠ last_width) || decide (p.2.height ≠ last_height))

/-- `switch_display` from `video_service.rs`: casts the requested `i32` index
to `usize`, runs `get_displays` (whose staleness reset and out-of-range
fallback are themselves persisted), and stores the requested index only when
it is below the enumeration's length. Returns the resulting
`CURRENT_DISPLAY`; a failed enumeration leaves the stored index unchanged. -/
def switch_display (i : ℤ) (elapsed_secs cur : ℕ) (ds : Option (List Disp)) :
    ℕ :=
  match ds with
  | none => cur
  | some ds =>
    let cur1 := get_displays elapsed_secs cur ds
    let iu := i32AsUsize i
    if iu < ds.length then iu else cur1

/-! ### Capture-loop wait budget (`run`, `WAIT_BASE`) -/

/-- `WAIT_BASE` from `video_service.rs` (ms). -/
def WAIT_BASE : ℤ := 17

/-- The wait-budget update on a `WouldBlock` capture result:
`wait = WAIT_BASE - now.elapsed().as_millis() as i32; if wait < 0 { wait = 0 }`.
The `u128 → i32` cast keeps the low 32 bits, reinterpreted signed. -/
def next_wait (elapsed_ms : ℕ) : ℤ :=
  let w := WAIT_BASE - s32ofNat elapsed_ms
  if w < 0 then 0 else w

/-- What a tick of the capture loop does to the wait budget: a successful
frame leaves it unchanged; a `WouldBlock` with the given elapsed time since
the tick started replaces it with `next_wait`. (Other capture errors exit the
loop.) -/
inductive CaptureTick where
  | frameOk : CaptureTick
  | wouldBlock (elapsed_ms : ℕ) : CaptureTick

/-- One tick's effect on the wait budget. -/
def step_wait (w : ℤ) (t : CaptureTick) : ℤ :=
  match t with
  | .frameOk => w
  | .wouldBlock e => next_wait e

/-- The wait budget after a sequence of ticks, starting from `WAIT_BASE` as
`run` does. -/
def run_wait (ticks : List CaptureTick) : ℤ := ticks.foldl step_wait WAIT_BASE

/-! ### Privacy-mode conflict check (`check_privacy_mode_changed`) -/

/-- Outcome of a per-tick check in `run`: `ok` to continue, `switch` for the
`bail!("SWITCH")` restart signal. -/
inductive TickStatus where
  | ok : TickStatus
  | switch : TickStatus
deriving DecidableEq, Repr

/-- `check_privacy_mode_changed` from `video_service.rs`, given the id the
session's capturer was built for and the current `PRIVACY_MODE_CONN_ID`.
The second component models the one possible side effect: `some excl` means
the `OnByOther` privacy message was sent via `sp.send_to_others(msg, excl)`,
i.e. broadcast to every connection except `excl`; `none` means no message. -/
def check_privacy_mode_changed (privacy_mode_id cur : ℤ) :
    TickStatus × Option ℤ :=
  if privacy_mode_id ≠ cur then
    (TickStatus.switch, if cur ≠ 0 then some cur else none)
  else (TickStatus.ok, none)

/-- Whether connection `conn` receives the message recorded in a
`check_privacy_mode_changed` result: a `send_to_others(_, excl)` broadcast
reaches every connection other than `excl`. -/
def notified (res : TickStatus × Option ℤ) (conn : ℤ) : Bool :=
  match res.2 with
  | none => false
  | some excl => conn != excl

/-! ### Frame controller (`VideoFrameController::blocking_wait_next`) -/

/-- The receive loop inside `blocking_wait_next`, in discrete time. `events`
is the sequence of `(arrival_offset_ms, connection_id)` pairs delivered on
the `FRAME_FETCHED_NOTIFIER` channel during the wait, in order, with arrival
offsets measured from the start of the wait; `now` is the elapsed time at the
top of the loop, `fetched` the ids received so far. Each iteration mirrors
the source: stop once `timeout ≤ now`; a receive that would complete at or
after `timeout` times out instead (the `tokio::time::timeout` with the
remaining duration), ending the wait at `timeout`; otherwise the event's id
is inserted into `fetched` — whatever the id — and the loop breaks when
`fetched` has reached the size of the armed set. The result is the elapsed
time at which the wait ends and the accumulated id set. -/
def blocking_wait_loop (armed_card timeout : ℕ) (fetched : Finset ℤ)
    (events : List (ℕ × ℤ)) (now : ℕ) : ℕ × Finset ℤ :=
  if timeout ≤ now then (now, fetched)
  else
    match events with
    | [] => (timeout, fetched)
    | (t, id) :: rest =>
      if timeout ≤ t then (timeout, fetched)
      else
        let f := insert id fetched
        if armed_card ≤ f.card then (t, f)
        else blocking_wait_loop armed_card timeout f rest t

/-- `blocking_wait_next` from `video_service.rs`: returns immediately when no
connection ids are armed (`send_conn_ids` empty); otherwise runs the receive
loop from elapsed time `0` with an empty fetched set. -/
def blocking_wait_next (armed : Finset ℤ) (timeout : ℕ)
    (events : List (ℕ × ℤ)) : ℕ × Finset ℤ :=
  if armed = ∅ then (0, ∅)
  else blocking_wait_loop armed.card timeout ∅ events 0

/-! ## Theorems -/

/-- C7: topology-change detection against baseline `(n=1, current=0, w=1920,
h=1080)`: an identical single primary 1920×1080 display yields `false`; a
changed display count, a primary sitting at a different index, or a changed
primary width or height each yield `true`. -/
theorem check_display_changed_baseline :
    check_display_changed (some [⟨1920, 1080, true⟩]) 1 0 1920 1080 = false ∧
    check_display_changed (some [⟨1920, 1080, true⟩, ⟨800, 600, false⟩]) 1 0 1920 1080 = true ∧
    check_display_changed (some []) 1 0 1920 1080 = true ∧
    check_display_changed (some [⟨800, 600, false⟩, ⟨1920, 1080, true⟩]) 1 0 1920 1080 = true ∧
    check_display_changed (some [⟨1280, 1080, true⟩]) 1 0 1920 1080 = true ∧
    check_display_changed (some [⟨1920, 720, true⟩]) 1 0 1920 1080 = true := by
  decide

/-- C4 (counterexample): `convert_quality` is not idempotent on the Balanced
preset: the preset converts to packed `16908`, but converting that packed
value again rescales it to `33823`. -/
theorem convert_quality_balanced_not_idempotent :
    convert_quality ImageQualityBalanced = 16908 ∧
    convert_quality (convert_quality ImageQualityBalanced) = 33823 ∧
    convert_quality (convert_quality ImageQualityBalanced) ≠
      convert_quality ImageQualityBalanced := by
  decide

/-- C4 (amended): each preset converts to a fixed packed value (Low `12818`,
Balanced `16908`, Best `25612`), so evaluating the conversion on the same
preset twice yields the same packed value both times; but the conversion is
not idempotent as a function — re-converting each preset's packed output
rescales it to a different packed value. -/
theorem convert_quality_preset_values :
    convert_quality ImageQualityLow = 12818 ∧
    convert_quality ImageQualityBalanced = 16908 ∧
    convert_quality ImageQualityBest = 25612 ∧
    convert_quality 12818 = 25629 ∧ (25629 : ℤ) ≠ 12818 ∧
    convert_quality 16908 = 33823 ∧ (33823 : ℤ) ≠ 16908 ∧
    convert_quality 25612 = 51231 ∧ (51231 : ℤ) ≠ 25612 := by
  decide

/-- C5 (counterexample): at 10×10 pixels and the Balanced packed quality the
derived bitrate is `0` although the pixel count `100` is not zero — `w*h/1000`
floors to `0` — so the bitrate is not "zero only if the pixel count is
zero". -/
theorem get_quality_zero_bitrate_nonzero_pixels :
    (get_quality 10 10 16908).1 = 0 ∧ 10 * 10 ≠ 0 := by
  decide

/-- C5 (amended): absent 64/32-bit overflow, the derived bitrate equals
`(w*h/1000) * bitrate_fraction / 100` in integer arithmetic, and it is zero
exactly when that product floors below 100 (which can happen with a nonzero
pixel count); the quantizer bounds are `quantizer..56` and the speed is the
constant `7`. -/
theorem get_quality_formula (w h : ℕ) (q : ℤ)
    (hwh : w * h < U64MOD) (hb : w * h / 1000 < U32MOD)
    (hm : (bitrate_fraction q).toNat * (w * h / 1000) < U32MOD) :
    (get_quality w h q).1 = w * h / 1000 * (bitrate_fraction q).toNat / 100 ∧
    ((get_quality w h q).1 = 0 ↔
      (bitrate_fraction q).toNat * (w * h / 1000) < 100) ∧
    (get_quality w h q).2.1 = (land255 q).toNat ∧
    (get_quality w h q).2.2.1 = 56 ∧
    (get_quality w h q).2.2.2 = 7 := by
  simp only [get_quality, bitrate_fraction] at *
  rw [Nat.mod_eq_of_lt hwh, Nat.mod_eq_of_lt hb, Nat.mod_eq_of_lt hm]
  refine ⟨by rw [Nat.mul_comm], ?_, trivial, trivial, trivial⟩
  rw [Nat.div_eq_zero_iff (by norm_num)]

/-- C5 (witness): the amended formula at 1920×1080 and the Balanced packed
quality: bitrate `2073600/1000 * 66 / 100 = 1368`, quantizer bounds `12..56`,
speed `7`. -/
theorem get_quality_formula_witness :
    (get_quality 1920 1080 16908).1 =
      1920 * 1080 / 1000 * (bitrate_fraction 16908).toNat / 100 ∧
    ((get_quality 1920 1080 16908).1 = 0 ↔
      (bitrate_fraction 16908).toNat * (1920 * 1080 / 1000) < 100) ∧
    (get_quality 1920 1080 16908).2.1 = (land255 16908).toNat ∧
    (get_quality 1920 1080 16908).2.2.1 = 56 ∧
    (get_quality 1920 1080 16908).2.2.2 = 7 :=
  get_quality_formula 1920 1080 16908 (by decide) (by decide) (by decide)

/-- Helper: the minimum of a nonempty integer list is a member and a lower
bound. -/
theorem int_list_min_spec (l : List ℤ) (m : ℤ) (h : l.min? = some m) :
    m ∈ l ∧ ∀ b ∈ l, m ≤ b :=
  ⟨List.min?_mem (fun a b => min_choice a b) h,
    fun b hb => (List.le_min?_iff (fun _ _ _ => le_min_iff) h).mp le_rfl b hb⟩

/-- C3 (counterexample): on the table `{1 ↦ 65024, 2 ↦ 65536}` the effective
quality is the minimum `65024`, but its bitrate-fraction component as the code
extracts it (`q >> 8 & 0xFF`) is `254`, which is not `≤` the component `0` of
the entry `65536`; both entries are reachable as `convert_quality` outputs
(of raw requests `32612` and `32868`), hence storable by
`update_image_quality`. -/
theorem get_image_quality_mask_counterexample :
    get_image_quality [(1, 65024), (2, 65536)] = 65024 ∧
    bitrate_fraction 65024 = 254 ∧ bitrate_fraction 65536 = 0 ∧
    ¬ bitrate_fraction (get_image_quality [(1, 65024), (2, 65536)]) ≤
        bitrate_fraction 65536 ∧
    convert_quality 32612 = 65024 ∧ convert_quality 32868 = 65536 := by
  decide

/-- C3 (amended): for a non-empty table the effective quality equals the
minimum packed entry (it is one of the entries and a lower bound for all of
them), and its bitrate component read without the 8-bit mask — the packed
value arithmetically shifted right by 8 — is `≤` every entry's; the masked
`q >> 8 & 0xFF` comparison of the original claim fails once an entry's
bitrate fraction exceeds 255. For an empty table the effective quality is the
packed Balanced preset. -/
theorem get_image_quality_min (t : List (ℤ × ℤ)) (ht : t ≠ []) :
    ((∃ p ∈ t, get_image_quality t = p.2) ∧
      (∀ p ∈ t, get_image_quality t ≤ p.2) ∧
      (∀ p ∈ t, shr32 (get_image_quality t) 8 ≤ shr32 p.2 8)) ∧
    get_image_quality [] = convert_quality ImageQualityBalanced := by
  refine ⟨?_, rfl⟩
  have hm : (t.map Prod.snd).min?.isSome := by
    rcases t with _ | ⟨p, t⟩
    · exact absurd rfl ht
    · simp [List.min?_cons']
  obtain ⟨m, hm⟩ := Option.isSome_iff_exists.mp hm
  have hq : get_image_quality t = m := by simp [get_image_quality, hm]
  obtain ⟨hmem, hle⟩ := int_list_min_spec _ _ hm
  refine ⟨?_, ?_, ?_⟩
  · obtain ⟨p, hp, hpe⟩ := List.mem_map.mp hmem
    exact ⟨p, hp, by rw [hq, hpe]⟩
  · intro p hp
    rw [hq]
    exact hle p.2 (List.mem_map_of_mem _ hp)
  · intro p hp
    have h2 := hle p.2 (List.mem_map_of_mem _ hp)
    rw [hq]
    unfold shr32
    rw [Int.fdiv_eq_ediv _ (by norm_num), Int.fdiv_eq_ediv _ (by norm_num)]
    exact Int.ediv_le_ediv (by norm_num) h2

/-- C3 (witness): the amended statement on the concrete table
`{1 ↦ 16908, 2 ↦ 12818}`. -/
theorem get_image_quality_min_witness :
    ((∃ p ∈ [((1 : ℤ), (16908 : ℤ)), (2, 12818)],
        get_image_quality [(1, 16908), (2, 12818)] = p.2) ∧
      (∀ p ∈ [((1 : ℤ), (16908 : ℤ)), (2, 12818)],
        get_image_quality [(1, 16908), (2, 12818)] ≤ p.2) ∧
      (∀ p ∈ [((1 : ℤ), (16908 : ℤ)), (2, 12818)],
        shr32 (get_image_quality [(1, 16908), (2, 12818)]) 8 ≤ shr32 p.2 8)) ∧
    get_image_quality [] = convert_quality ImageQualityBalanced :=
  get_image_quality_min [(1, 16908), (2, 12818)] (by decide)

/-- Helper: `update_image_quality` preserves positivity of every stored
packed value. -/
theorem update_image_quality_preserves_pos (id : ℤ) (q : Option ℤ)
    (t : List (ℤ × ℤ)) (h : ∀ p ∈ t, 0 < p.2) :
    ∀ p ∈ update_image_quality id q t, 0 < p.2 := by
  intro p hp
  have hfil : ∀ {l : List (ℤ × ℤ)}, p ∈ l.filter (fun r => r.1 ≠ id) → p ∈ l :=
    fun hm => (List.mem_filter.mp hm).1
  cases q with
  | none => exact h p (hfil hp)
  | some q0 =>
    simp only [update_image_quality] at hp
    split at hp
    · rcases List.mem_cons.mp hp with h1 | h1
      · subst h1
        assumption
      · exact h p (hfil h1)
    · exact h p (hfil hp)

/-- Helper: every value stored after a sequence of `update_image_quality`
calls on a table of positive values is positive. -/
theorem apply_quality_updates_pos (ops : List (ℤ × Option ℤ)) :
    ∀ (t : List (ℤ × ℤ)), (∀ p ∈ t, 0 < p.2) →
      ∀ p ∈ apply_quality_updates ops t, 0 < p.2 := by
  induction ops with
  | nil => exact fun t ht => ht
  | cons op rest ih =>
    intro t ht
    exact ih _ (update_image_quality_preserves_pos op.1 op.2 t ht)

/-- C10: a request converting to a non-positive packed value removes the
connection's entry rather than storing it; consequently, starting from the
empty table, every value stored by any sequence of `update_image_quality`
calls is strictly positive, and the effective quality over a resulting
non-empty table is strictly positive. -/
theorem quality_table_positive (ops : List (ℤ × Option ℤ)) :
    (∀ (id q : ℤ) (t : List (ℤ × ℤ)), convert_quality q ≤ 0 →
      update_image_quality id (some q) t = qualities_remove id t) ∧
    (∀ p ∈ apply_quality_updates ops [], 0 < p.2) ∧
    (apply_quality_updates ops [] ≠ [] →
      0 < get_image_quality (apply_quality_updates ops [])) := by
  have hpos : ∀ p ∈ apply_quality_updates ops [], 0 < p.2 :=
    apply_quality_updates_pos ops [] (by intro p hp; cases hp)
  refine ⟨?_, hpos, ?_⟩
  · intro id q t h
    simp only [update_image_quality, if_neg (not_lt.mpr h)]
  · intro hne
    set t := apply_quality_updates ops [] with hts
    have hm : (t.map Prod.snd).min?.isSome := by
      rcases hts2 : t with _ | ⟨p, t2⟩
      · exact absurd hts2 hne
      · simp [List.min?_cons']
    obtain ⟨m, hm⟩ := Option.isSome_iff_exists.mp hm
    have hq : get_image_quality t = m := by simp [get_image_quality, hm]
    obtain ⟨hmem, -⟩ := int_list_min_spec _ _ hm
    obtain ⟨p, hp, hpe⟩ := List.mem_map.mp hmem
    rw [hq, ← hpe]
    exact hpos p hp

/-- C10 (witness): a request whose converted packed value is non-positive
(the raw request `511` converts to `-55`) removes the entry, and after the
updates `{1 ↦ convert 3}` the effective quality is positive. -/
theorem quality_table_positive_witness :
    update_image_quality 1 (some 511) [(1, 5)] = qualities_remove 1 [(1, 5)] ∧
    0 < get_image_quality (apply_quality_updates [(1, some 3)] []) :=
  ⟨(quality_table_positive []).1 1 511 [(1, 5)] (by decide),
    (quality_table_positive [(1, some 3)]).2.2 (by decide)⟩

/-- Helper: the primary-selection fold over an index-enumerated display list
stays below `n` whenever its start index bound and initial value do. -/
theorem primary_fold_lt (ds : List Disp) :
    ∀ (k init n : ℕ), init < n → k + ds.length ≤ n →
      ((ds.enumFrom k).foldl (fun acc p => if p.2.primary then p.1 else acc)
        init) < n := by
  induction ds with
  | nil =>
    intro k init n hinit _
    simpa [List.enumFrom] using hinit
  | cons d ds ih =>
    intro k init n hinit hk
    simp only [List.enumFrom, List.foldl_cons]
    refine ih (k + 1) _ n ?_ (by simp at hk; omega)
    split_ifs
    · simp at hk; omega
    · exact hinit

/-- Helper: on a non-empty display list the persisted primary index is in
range. -/
theorem primary_of_lt_length (ds : List Disp) (hne : ds ≠ []) :
    primary_of ds < ds.length := by
  have h0 : 0 < ds.length := List.length_pos.mpr hne
  exact primary_fold_lt ds 0 0 ds.length h0 (by omega)

/-- C6: after at least 30 seconds without viewer interaction the stored index
is reset to unset (`usize::MAX`); within the same enumeration any stored
index not below the display count — whether the staleness marker or a stale
in-range-overflowing index — is replaced by the primary display's index,
which is persisted and in range of the enumeration. -/
theorem get_displays_stale_reset (e cur : ℕ) (ds : List Disp) (hne : ds ≠ [])
    (hlen : ds.length ≤ USIZE_MAX) :
    (30 ≤ e → stale_reset e cur = USIZE_MAX) ∧
    (30 ≤ e ∨ ds.length ≤ cur → get_displays e cur ds = primary_of ds) ∧
    primary_of ds < ds.length := by
  refine ⟨?_, ?_, primary_of_lt_length ds hne⟩
  · intro h
    simp [stale_reset, h]
  · intro h
    unfold get_displays stale_reset
    rcases h with h | h
    · rw [if_pos h, if_pos hlen]
    · by_cases h30 : 30 ≤ e
      · rw [if_pos h30, if_pos hlen]
      · rw [if_neg h30, if_pos h]

/-- C6 (witness): with 31 seconds of inactivity and displays
`[secondary, primary]`, the reset fires and the persisted index becomes `1`,
the primary's index. -/
theorem get_displays_stale_reset_witness :
    (30 ≤ 31 → stale_reset 31 0 = USIZE_MAX) ∧
    (30 ≤ 31 ∨ ([⟨800, 600, false⟩, ⟨1920, 1080, true⟩] : List Disp).length ≤ 0 →
      get_displays 31 0 [⟨800, 600, false⟩, ⟨1920, 1080, true⟩] =
        primary_of [⟨800, 600, false⟩, ⟨1920, 1080, true⟩]) ∧
    primary_of [⟨800, 600, false⟩, ⟨1920, 1080, true⟩] <
      ([⟨800, 600, false⟩, ⟨1920, 1080, true⟩] : List Disp).length :=
  get_displays_stale_reset 31 0 [⟨800, 600, false⟩, ⟨1920, 1080, true⟩]
    (by decide) (by decide)

/-- C9 (counterexample): `switch_display(100)` with two displays and the
stale stored index `5`: the requested index is out of range, yet the call
changes the stored selection from `5` to `0`, because the embedded
`get_displays` enumeration itself persists the out-of-range fallback to the
primary index — the call is not a no-op on the stored selection. -/
theorem switch_display_out_of_range_mutates :
    switch_display 100 0 5 (some [⟨1920, 1080, true⟩, ⟨800, 600, false⟩]) = 0 ∧
    ¬ i32AsUsize 100 <
        ([⟨1920, 1080, true⟩, ⟨800, 600, false⟩] : List Disp).length ∧
    (0 : ℕ) ≠ 5 := by
  decide

/-- C9 (amended): provided the stored selection is in range and fresh
(so the embedded enumeration does not itself renormalize it), an out-of-range
requested index — including every negative one, which casts to a huge
`usize` — leaves the stored selection unchanged, as does a failed
enumeration; an in-range requested index updates the stored selection to it. -/
theorem switch_display_spec (i : ℤ) (e cur : ℕ) (ds : List Disp)
    (he : e < 30) (hcur : cur < ds.length) :
    (ds.length ≤ i32AsUsize i → switch_display i e cur (some ds) = cur) ∧
    (i32AsUsize i < ds.length → switch_display i e cur (some ds) = i32AsUsize i) ∧
    (i < 0 → -2147483648 ≤ i → ds.length ≤ 4294967296 →
      switch_display i e cur (some ds) = cur) ∧
    switch_display i e cur none = cur := by
  have hgd : get_displays e cur ds = cur := by
    unfold get_displays stale_reset
    rw [if_neg (show ¬ 30 ≤ e by omega),
      if_neg (show ¬ ds.length ≤ cur by omega)]
  have hout : ds.length ≤ i32AsUsize i → switch_display i e cur (some ds) = cur := by
    intro h
    simp only [switch_display]
    rw [if_neg (not_lt.mpr h), hgd]
  refine ⟨hout, ?_, ?_, rfl⟩
  · intro h
    simp only [switch_display]
    rw [if_pos h]
  · intro hneg hlow hsmall
    refine hout ?_
    unfold i32AsUsize
    omega

/-- C9 (witness): requesting index `100` (out of range) leaves a fresh
in-range selection `0` unchanged; requesting index `1` (in range) stores `1`. -/
theorem switch_display_spec_witness :
    switch_display 100 0 0 (some [⟨1920, 1080, true⟩, ⟨800, 600, false⟩]) = 0 ∧
    switch_display 1 0 0 (some [⟨1920, 1080, true⟩, ⟨800, 600, false⟩]) =
      i32AsUsize 1 :=
  ⟨(switch_display_spec 100 0 0 [⟨1920, 1080, true⟩, ⟨800, 600, false⟩]
      (by decide) (by decide)).1 (by decide),
   (switch_display_spec 1 0 0 [⟨1920, 1080, true⟩, ⟨800, 600, false⟩]
      (by decide) (by decide)).2.1 (by decide)⟩

/-- Helper: for elapsed times below `2^31` ms (no `i32` overflow in the
`as_millis() as i32` cast) the recomputed wait budget is `WAIT_BASE` shrunk
by the elapsed time, clamped at zero. -/
theorem next_wait_spec (e : ℕ) (h : e < 2147483648) :
    0 ≤ next_wait e ∧ next_wait e ≤ WAIT_BASE ∧
    ((e : ℤ) ≤ 17 → next_wait e = WAIT_BASE - e) ∧
    (17 ≤ (e : ℤ) → next_wait e = 0) := by
  have h1 : e % 4294967296 = e := Nat.mod_eq_of_lt (by omega)
  simp only [next_wait, s32ofNat, WAIT_BASE, U32MOD, h1]
  split_ifs <;>
    exact ⟨by omega, by omega, fun hc => by omega, fun hc => by omega⟩

/-- Helper: folding any tick sequence with in-range elapsed times keeps the
wait budget within `0..=WAIT_BASE` if it starts there. -/
theorem foldl_step_wait_bounds (ticks : List CaptureTick) :
    ∀ w : ℤ, 0 ≤ w → w ≤ WAIT_BASE →
      (∀ e, CaptureTick.wouldBlock e ∈ ticks → e < 2147483648) →
      0 ≤ ticks.foldl step_wait w ∧ ticks.foldl step_wait w ≤ WAIT_BASE := by
  induction ticks with
  | nil => exact fun w h0 h17 _ => ⟨h0, h17⟩
  | cons tk rest ih =>
    intro w h0 h17 hb
    rw [List.foldl_cons]
    cases tk with
    | frameOk =>
      exact ih w h0 h17 fun e2 he2 => hb e2 (List.mem_cons_of_mem _ he2)
    | wouldBlock e =>
      have he : e < 2147483648 := hb e (List.mem_cons_self _ _)
      have hn := next_wait_spec e he
      exact ih _ hn.1 hn.2.1 fun e2 he2 => hb e2 (List.mem_cons_of_mem _ he2)

/-- C8: provided no tick's elapsed time overflows the `i32` cast (is below
`2^31` ms), the wait budget handed to the capturer stays within
`0..=WAIT_BASE` across every tick of the loop, and each would-block tick
replaces it with `WAIT_BASE` shrunk by the tick's elapsed time, never below
zero. -/
theorem wait_budget_invariant (ticks : List CaptureTick)
    (h : ∀ e, CaptureTick.wouldBlock e ∈ ticks → e < 2147483648) :
    (0 ≤ run_wait ticks ∧ run_wait ticks ≤ WAIT_BASE) ∧
    ∀ e : ℕ, e < 2147483648 →
      0 ≤ next_wait e ∧ ((e : ℤ) ≤ 17 → next_wait e = WAIT_BASE - e) ∧
      (17 ≤ (e : ℤ) → next_wait e = 0) := by
  refine ⟨?_, fun e he => ?_⟩
  · exact foldl_step_wait_bounds ticks WAIT_BASE (by decide) le_rfl h
  · have hn := next_wait_spec e he
    exact ⟨hn.1, hn.2.2.1, hn.2.2.2⟩

/-- C8 (witness): the invariant on the concrete tick sequence
`[wouldBlock 5, frameOk, wouldBlock 30]`, whose final budget is `0`. -/
theorem wait_budget_invariant_witness :
    (0 ≤ run_wait [CaptureTick.wouldBlock 5, CaptureTick.frameOk,
        CaptureTick.wouldBlock 30] ∧
      run_wait [CaptureTick.wouldBlock 5, CaptureTick.frameOk,
        CaptureTick.wouldBlock 30] ≤ WAIT_BASE) ∧
    ∀ e : ℕ, e < 2147483648 →
      0 ≤ next_wait e ∧ ((e : ℤ) ≤ 17 → next_wait e = WAIT_BASE - e) ∧
      (17 ≤ (e : ℤ) → next_wait e = 0) :=
  wait_budget_invariant
    [CaptureTick.wouldBlock 5, CaptureTick.frameOk, CaptureTick.wouldBlock 30]
    (by
      intro e he
      simp only [List.mem_cons, List.not_mem_nil, or_false,
        CaptureTick.wouldBlock.injEq] at he
      rcases he with rfl | he | rfl
      · omega
      · exact absurd he (by simp)
      · omega)

/-- C2 (counterexample): session owner `3`, current owner `0` (privacy mode
released): the ownership ids differ and the tick does abort with the restart
signal, but no takeover message is sent, so the previous owner `3` is not
notified — the code only notifies when the new owner id is non-zero. -/
theorem check_privacy_mode_changed_release_no_notification :
    (3 : ℤ) ≠ 0 ∧
    check_privacy_mode_changed 3 0 = (TickStatus.switch, none) ∧
    notified (check_privacy_mode_changed 3 0) 3 = false := by
  decide

/-- C2 (amended): whenever the current privacy-mode owner differs from the id
the session's capturer was built for, the tick aborts with the restart
signal; if additionally the current owner id is non-zero, the takeover
message is broadcast to every connection except the current owner — in
particular the previous owner receives it; if the current owner id is zero
(privacy mode released), no message is sent. -/
theorem check_privacy_mode_changed_spec (pid cur : ℤ) (h : pid ≠ cur) :
    (check_privacy_mode_changed pid cur).1 = TickStatus.switch ∧
    (cur ≠ 0 → (check_privacy_mode_changed pid cur).2 = some cur ∧
      notified (check_privacy_mode_changed pid cur) pid = true) ∧
    (cur = 0 → (check_privacy_mode_changed pid cur).2 = none) := by
  refine ⟨by simp [check_privacy_mode_changed, h], ?_, ?_⟩
  · intro h2
    have h5 : check_privacy_mode_changed pid cur = (TickStatus.switch, some cur) := by
      simp [check_privacy_mode_changed, h, h2]
    rw [h5]
    exact ⟨rfl, by simp [notified, bne_iff_ne, h]⟩
  · intro h2
    subst h2
    unfold check_privacy_mode_changed
    split_ifs <;> first | rfl | exact absurd rfl (by assumption)

/-- C2 (witness): connection `7` takes over privacy mode from session owner
`3`: the tick aborts and the takeover broadcast excludes only `7`, reaching
`3`. -/
theorem check_privacy_mode_changed_spec_witness :
    (check_privacy_mode_changed 3 7).1 = TickStatus.switch ∧
    ((7 : ℤ) ≠ 0 → (check_privacy_mode_changed 3 7).2 = some 7 ∧
      notified (check_privacy_mode_changed 3 7) 3 = true) ∧
    ((7 : ℤ) = 0 → (check_privacy_mode_changed 3 7).2 = none) :=
  check_privacy_mode_changed_spec 3 7 (by decide)

/-- Helper: the receive loop of `blocking_wait_next` ends no later than the
timeout, and when it ends early the accumulated id set has reached the armed
count. -/
theorem blocking_wait_loop_bounds (ac timeout : ℕ) (events : List (ℕ × ℤ)) :
    ∀ (fetched : Finset ℤ) (now : ℕ), now ≤ timeout →
      (blocking_wait_loop ac timeout fetched events now).1 ≤ timeout ∧
      ((blocking_wait_loop ac timeout fetched events now).1 = timeout ∨
        ac ≤ (blocking_wait_loop ac timeout fetched events now).2.card) := by
  induction events with
  | nil =>
    intro fetched now hle
    simp only [blocking_wait_loop]
    split_ifs with h1
    · exact ⟨hle, Or.inl (le_antisymm hle h1)⟩
    · exact ⟨le_rfl, Or.inl rfl⟩
  | cons ev rest ih =>
    intro fetched now hle
    obtain ⟨t, id⟩ := ev
    simp only [blocking_wait_loop]
    split_ifs with h1 h2 h3
    · exact ⟨hle, Or.inl (le_antisymm hle h1)⟩
    · exact ⟨le_rfl, Or.inl rfl⟩
    · exact ⟨le_of_lt (lt_of_not_le h2), Or.inr h3⟩
    · exact ih _ t (le_of_lt (lt_of_not_le h2))

/-- C1 (counterexample): with armed set `{1, 2}` and two immediate
acknowledgement events from foreign connections `3` and `4`, the wait returns
at elapsed time `0` with fetched set `{3, 4}`: neither has every armed id
acknowledged (the armed set is not contained in the fetched one) nor has the
timeout elapsed — foreign ids are inserted and counted, not ignored. -/
theorem blocking_wait_next_counts_foreign_ids :
    blocking_wait_next {1, 2} 3000 [(0, 3), (0, 4)] = (0, {3, 4}) ∧
    ¬ ({1, 2} : Finset ℤ) ⊆ {3, 4} ∧ (0 : ℕ) ≠ 3000 := by
  decide

/-- C1 (amended): the wait never ends after the timeout, and it ends before
the timeout only once the set of distinct acknowledging connection ids —
armed or not — has reached the size of the armed set; with an empty armed
set it returns immediately (elapsed 0, nothing fetched) regardless of the
timeout. -/
theorem blocking_wait_next_completion (armed : Finset ℤ) (timeout : ℕ)
    (events : List (ℕ × ℤ)) :
    (blocking_wait_next armed timeout events).1 ≤ timeout ∧
    ((blocking_wait_next armed timeout events).1 = timeout ∨
      armed.card ≤ (blocking_wait_next armed timeout events).2.card) ∧
    (armed = ∅ → blocking_wait_next armed timeout events = (0, ∅)) := by
  unfold blocking_wait_next
  split_ifs with h
  · refine ⟨Nat.zero_le _, Or.inr ?_, fun _ => rfl⟩
    simp [h]
  · have hb := blocking_wait_loop_bounds armed.card timeout events ∅ 0
      (Nat.zero_le _)
    exact ⟨hb.1, hb.2, fun h0 => absurd h0 h⟩

/-- C1 (witness): the empty armed set returns immediately even with a pending
event and a 3000 ms timeout. -/
theorem blocking_wait_next_completion_witness :
    (blocking_wait_next ∅ 3000 [(0, 7)]).1 ≤ 3000 ∧
    ((blocking_wait_next ∅ 3000 [(0, 7)]).1 = 3000 ∨
      (∅ : Finset ℤ).card ≤ (blocking_wait_next ∅ 3000 [(0, 7)]).2.card) ∧
    blocking_wait_next ∅ 3000 [(0, 7)] = (0, ∅) :=
  ⟨(blocking_wait_next_completion ∅ 3000 [(0, 7)]).1,
   (blocking_wait_next_completion ∅ 3000 [(0, 7)]).2.1,
   (blocking_wait_next_completion ∅ 3000 [(0, 7)]).2.2 rfl⟩

end VideoService
